import Mathlib

/-!
# wiz-eyedropper: capture loop, change gate, colour bypass and UDP sender

A shallow embedding of `src/main.cpp`:

* `UdpSender::sendColour` (lines 43-55): payload formatting and address cache;
* `ScreenCaptureThread::run` (lines 101-208): capture rectangle, sampling,
  change gate and the pacing clock;
* `WizLedController::processColour` (lines 501-527): validity check and
  near-black / near-white bypass in front of the floating-point pipeline.

C++ `int` values are embedded as `Int`.  Every `int` the embedded code computes
from colour channels lies in `[-765, 765]`; rectangle coordinates are taken in
the range where the C++ arithmetic does not overflow (signed overflow is
undefined behaviour and has no embedding).  The 64-bit unsigned accumulators
of the averaging loop are embedded as `Nat` reduced modulo `2 ^ 64` after
every addition.

The Qt value classes used by the source (`QColor`, `QRect`, `QRgb`, `QImage`,
`QHostAddress`) are library types; the parts of them the source calls are
embedded next to the code that calls them.
-/

namespace WizEyedropper

/-! ## Qt value types used by the source -/

/-- Colour value of the source (`QColor`): a validity flag and the three
channels as returned by `red()`, `green()`, `blue()`. -/
structure QColor where
  valid : Bool
  red : Int
  green : Int
  blue : Int
deriving DecidableEq, Repr

namespace QColor

/-- Default-constructed colour `QColor()`: invalid, channels read as 0. -/
def invalid : QColor := ⟨false, 0, 0, 0⟩

/-- Constructor `QColor(int r, int g, int b)`: valid exactly when all three
arguments are in `[0, 255]`, otherwise the invalid colour. -/
def fromRgb (r g b : Int) : QColor :=
  if 0 ≤ r ∧ r ≤ 255 ∧ 0 ≤ g ∧ g ≤ 255 ∧ 0 ≤ b ∧ b ≤ 255 then ⟨true, r, g, b⟩
  else invalid

/-- Channel invariant of a colour: every channel in `[0, 255]`. -/
def InRange (c : QColor) : Prop :=
  0 ≤ c.red ∧ c.red ≤ 255 ∧ 0 ≤ c.green ∧ c.green ≤ 255 ∧ 0 ≤ c.blue ∧ c.blue ≤ 255

instance (c : QColor) : Decidable c.InRange := by
  unfold InRange; infer_instance

end QColor

/-- Absolute value helper `qAbs(t)`: `t >= 0 ? t : -t`. -/
def qAbs (t : Int) : Int := if t ≥ 0 then t else -t

/-! ## Change gate (`ScreenCaptureThread::run`, lines 192-200) -/

/-- Sum of the absolute channel differences computed at lines 194-196. -/
def channelDistance (currentColour lastColour : QColor) : Int :=
  qAbs (currentColour.red - lastColour.red) +
  qAbs (currentColour.green - lastColour.green) +
  qAbs (currentColour.blue - lastColour.blue)

/-- Condition of the `if` at lines 193-196:
`!lastColour.isValid() || distance > m_updateThreshold`. -/
def changeGate (currentColour lastColour : QColor) (m_updateThreshold : Int) : Bool :=
  !lastColour.valid || decide (channelDistance currentColour lastColour > m_updateThreshold)

/-! ## Rectangles (`QRect`) -/

/-- Integer rectangle of the source (`QRect`), stored as Qt stores it: the
inclusive corner coordinates `x1, y1` (top-left) and `x2, y2` (bottom-right). -/
structure QRect where
  x1 : Int
  y1 : Int
  x2 : Int
  y2 : Int
deriving DecidableEq, Repr

namespace QRect

/-- Default-constructed rectangle `QRect()`: `(0, 0, -1, -1)`. -/
def null : QRect := ⟨0, 0, -1, -1⟩

/-- Method `setRect(x, y, w, h)`: overwrites all four coordinates. -/
def setRect (x y w h : Int) : QRect := ⟨x, y, x + w - 1, y + h - 1⟩

/-- Method `width()`: `x2 - x1 + 1`. -/
def width (r : QRect) : Int := r.x2 - r.x1 + 1

/-- Method `height()`: `y2 - y1 + 1`. -/
def height (r : QRect) : Int := r.y2 - r.y1 + 1

/-- Method `setWidth(w)`: `x2 = x1 + w - 1`. -/
def setWidth (r : QRect) (w : Int) : QRect := { r with x2 := r.x1 + w - 1 }

/-- Method `setHeight(h)`: `y2 = y1 + h - 1`. -/
def setHeight (r : QRect) (h : Int) : QRect := { r with y2 := r.y1 + h - 1 }

/-- Method `isNull()`: width and height are both 0. -/
def isNull (r : QRect) : Bool := r.x2 == r.x1 - 1 && r.y2 == r.y1 - 1

/-- Method `isEmpty()`: `x1 > x2 || y1 > y2`. -/
def isEmpty (r : QRect) : Bool := decide (r.x1 > r.x2) || decide (r.y1 > r.y2)

/-- Left edge after Qt's normalisation of a rectangle of negative width. -/
def normLeft (r : QRect) : Int := if r.x2 - r.x1 + 1 < 0 then r.x2 else r.x1

/-- Right edge after Qt's normalisation of a rectangle of negative width. -/
def normRight (r : QRect) : Int := if r.x2 - r.x1 + 1 < 0 then r.x1 else r.x2

/-- Top edge after Qt's normalisation of a rectangle of negative height. -/
def normTop (r : QRect) : Int := if r.y2 - r.y1 + 1 < 0 then r.y2 else r.y1

/-- Bottom edge after Qt's normalisation of a rectangle of negative height. -/
def normBottom (r : QRect) : Int := if r.y2 - r.y1 + 1 < 0 then r.y1 else r.y2

/-- Method `intersected(r)` (Qt's `QRect::operator&`): the null rectangle when
either operand is null or the normalised operands do not overlap, otherwise
the overlap of the normalised operands. -/
def intersected (a r : QRect) : QRect :=
  if a.isNull || r.isNull then null
  else if a.normLeft > r.normRight ∨ r.normLeft > a.normRight then null
  else if a.normTop > r.normBottom ∨ r.normTop > a.normBottom then null
  else ⟨max a.normLeft r.normLeft, max a.normTop r.normTop,
        min a.normRight r.normRight, min a.normBottom r.normBottom⟩

/-- Method `contains(r)` with `proper = false`: `r` lies inside the rectangle,
edges included, both taken normalised; false when either is null. -/
def contains (a r : QRect) : Bool :=
  if a.isNull || r.isNull then false
  else if r.normLeft < a.normLeft ∨ r.normRight > a.normRight then false
  else if r.normTop < a.normTop ∨ r.normBottom > a.normBottom then false
  else true

end QRect

/-! ## Pixels and images -/

/-- Pixel value `QRgb`: an unsigned 32-bit `0xAARRGGBB`. -/
abbrev QRgb := Nat

/-- Accessor `qRed(rgb)`: `(rgb >> 16) & 0xff`. -/
def qRed (rgb : QRgb) : Nat := (rgb >>> 16) &&& 0xff

/-- Accessor `qGreen(rgb)`: `(rgb >> 8) & 0xff`. -/
def qGreen (rgb : QRgb) : Nat := (rgb >>> 8) &&& 0xff

/-- Accessor `qBlue(rgb)`: `rgb & 0xff`. -/
def qBlue (rgb : QRgb) : Nat := rgb &&& 0xff

/-- Image as the source reads it (`QImage` in a 32-bit opaque format): its
dimensions and the pixel `scanLine y x` found at `constScanLine(y)[x]`. -/
structure QImage where
  width : Nat
  height : Nat
  scanLine : Nat → Nat → QRgb

namespace QImage

/-- Method `isNull()`: a null image has no pixels (Qt never builds a non-null
image with a zero dimension). -/
def isNull (image : QImage) : Bool := image.width == 0 || image.height == 0

/-- Method `pixelColor(x, y)`: the invalid colour when the image is null or the
coordinate is out of range, otherwise the colour of the (opaque) pixel. -/
def pixelColor (image : QImage) (x y : Nat) : QColor :=
  if image.isNull || decide (x ≥ image.width) || decide (y ≥ image.height) then
    QColor.invalid
  else
    let pixel := image.scanLine y x
    ⟨true, (qRed pixel : Int), (qGreen pixel : Int), (qBlue pixel : Int)⟩

end QImage

/-- Result of `screen->grabWindow(...)`: `none` is the null pixmap, `some image`
a pixmap whose `toImage()` is `image` (which may itself be null). -/
abbrev QPixmap := Option QImage

/-- All pixels of the image in the order the two nested loops visit them
(scan line by scan line, left to right). -/
def QImage.pixels (image : QImage) : List QRgb :=
  ((List.range image.height).map
    (fun y => (List.range image.width).map (fun x => image.scanLine y x))).flatten

/-! ## Averaging loop (`ScreenCaptureThread::run`, lines 163-185) -/

/-- Locals of the averaging loop: the three `quint64` totals and the `int`
pixel counter. -/
structure Totals where
  rTotal : Nat
  gTotal : Nat
  bTotal : Nat
  pixelCount : Int
deriving DecidableEq, Repr

/-- Body of the inner loop (lines 169-173): unsigned 64-bit additions and the
counter increment. -/
def addPixel (t : Totals) (pixel : QRgb) : Totals :=
  { rTotal := (t.rTotal + qRed pixel) % 2 ^ 64
    gTotal := (t.gTotal + qGreen pixel) % 2 ^ 64
    bTotal := (t.bTotal + qBlue pixel) % 2 ^ 64
    pixelCount := t.pixelCount + 1 }

/-- Inner loop (lines 168-174) over the columns of scan line `y`. -/
def sumLine (image : QImage) (y : Nat) (t : Totals) : Totals :=
  (List.range image.width).foldl (fun acc x => addPixel acc (image.scanLine y x)) t

/-- Outer loop (lines 166-175) over the scan lines, from zeroed locals. -/
def sumImage (image : QImage) : Totals :=
  (List.range image.height).foldl (fun acc y => sumLine image y acc) ⟨0, 0, 0, 0⟩

/-- Conversion of an `int` operand to `quint64` in `rTotal / pixelCount`. -/
def toUInt64 (i : Int) : Nat := (i % 2 ^ 64).toNat

/-- Conversion of a `quint64` quotient to the `int` parameter of `QColor`. -/
def toInt32 (n : Nat) : Int :=
  if n % 2 ^ 32 < 2 ^ 31 then ((n % 2 ^ 32 : Nat) : Int) else ((n % 2 ^ 32 : Nat) : Int) - 2 ^ 32

/-- Lines 177-185: the mean colour when the counter is positive, else black. -/
def meanColour (t : Totals) : QColor :=
  if t.pixelCount > 0 then
    QColor.fromRgb (toInt32 (t.rTotal / toUInt64 t.pixelCount))
      (toInt32 (t.gTotal / toUInt64 t.pixelCount))
      (toInt32 (t.bTotal / toUInt64 t.pixelCount))
  else QColor.fromRgb 0 0 0

/-! ## One iteration of the capture loop (`ScreenCaptureThread::run`, lines 126-207) -/

/-- Constant `targetFPS` (line 117). -/
def targetFPS : Int := 60

/-- Constant `sleepTime = 1000 / targetFPS` (line 118), in milliseconds. -/
def sleepTime : Int := Int.tdiv 1000 targetFPS

/-- Lines 129-137: the rectangle `[x - size/2, y - size/2, size, size]`, forced to
1 x 1 when its width or height is `<= 0`, intersected with the screen. -/
def captureRectOf (m_x m_y m_size : Int) (screenRect : QRect) : QRect :=
  let captureRect := QRect.setRect (m_x - Int.tdiv m_size 2) (m_y - Int.tdiv m_size 2) m_size m_size
  let captureRect :=
    if captureRect.width ≤ 0 ∨ captureRect.height ≤ 0 then
      (captureRect.setWidth 1).setHeight 1
    else captureRect
  captureRect.intersected screenRect

/-- Lines 153-186: the colour assigned to `currentColour`, or `none` on the
`continue` at line 160 (null image on the averaging path). -/
def sampleColour (captureRect : QRect) (image : QImage) : Option QColor :=
  if captureRect.width = 1 ∧ captureRect.height = 1 then
    some (image.pixelColor 0 0)
  else if image.isNull then none
  else some (meanColour (sumImage image))

/-- Lines 188-190: an invalid colour is replaced by `QColor(0, 0, 0)`. -/
def validOrBlack (currentColour : QColor) : QColor :=
  if !currentColour.valid then QColor.fromRgb 0 0 0 else currentColour

/-- Variables of `run` that live across iterations, and the clock: `now` is the
wall-clock time in milliseconds, `timerStart` the instant of the last
`timer.start()` / `timer.restart()`. -/
structure LoopState where
  lastColour : QColor
  currentColour : QColor
  now : Int
  timerStart : Int
deriving DecidableEq, Repr

/-- What one iteration reads from outside the thread: the guarded members
`m_x, m_y, m_size`, the threshold, the pixmap the grab returns (when the grab is
reached) and `work`, the milliseconds the iteration's own statements take. -/
structure Tick where
  m_x : Int
  m_y : Int
  m_size : Int
  m_updateThreshold : Int
  pixmap : QPixmap
  work : Int

/-- The three `msleep(sleepTime); continue;` exits (lines 140, 149, 159): the
work and the sleep pass, nothing else changes (the timer is not restarted). -/
def skipTick (s : LoopState) (work : Int) : LoopState :=
  { s with now := s.now + work + sleepTime }

/-- Lines 202-206: `elapsed` is read, the timer restarted, and the residual
`sleepTime - elapsed` is slept only when `elapsed < sleepTime`. -/
def paceTick (now timerStart : Int) : Int × Int :=
  let elapsed := now - timerStart
  let timerStart := now
  if elapsed < sleepTime then (now + (sleepTime - elapsed), timerStart)
  else (now, timerStart)

/-- Body of the `while (m_active)` loop: the new state and the colour passed to
`emit colourCaptured(...)`, if any. -/
def iteration (screenRect : QRect) (s : LoopState) (e : Tick) : LoopState × Option QColor :=
  let captureRect := captureRectOf e.m_x e.m_y e.m_size screenRect
  if captureRect.isEmpty then (skipTick s e.work, none)
  else
    match e.pixmap with
    | none => (skipTick s e.work, none)
    | some image =>
      match sampleColour captureRect image with
      | none => (skipTick s e.work, none)
      | some sampled =>
        let currentColour := validOrBlack sampled
        let clock := paceTick (s.now + e.work) s.timerStart
        if changeGate currentColour s.lastColour e.m_updateThreshold then
          ({ lastColour := currentColour, currentColour := currentColour,
             now := clock.1, timerStart := clock.2 }, some currentColour)
        else
          ({ lastColour := s.lastColour, currentColour := currentColour,
             now := clock.1, timerStart := clock.2 }, none)

/-- State at the first loop test: `lastColour` and `currentColour` are
default-constructed and the timer has just been started (lines 114-124). -/
def initialState (t0 : Int) : LoopState :=
  { lastColour := QColor.invalid, currentColour := QColor.invalid, now := t0, timerStart := t0 }

/-- Iterations of the loop for the given ticks, in order: the final state and
the colours emitted, oldest first. -/
def runLoop (screenRect : QRect) : LoopState → List Tick → LoopState × List QColor
  | s, [] => (s, [])
  | s, e :: es =>
    let r := iteration screenRect s e
    let rest := runLoop screenRect r.1 es
    (rest.1, r.2.toList ++ rest.2)

/-- A 1920 x 1080 screen at the origin, used for concrete runs. -/
def fullHD : QRect := ⟨0, 0, 1919, 1079⟩

/-- A tick of a steady run: the single pixel at `(100, 100)` is grabbed, the grab
succeeds with pixel `0xff102030`, and the iteration's own work takes `work`
milliseconds. -/
def steadyTick (work : Int) : Tick :=
  ⟨100, 100, 1, 3, some ⟨1, 1, fun _ _ => 0xff102030⟩, work⟩

/-- A tick in which the single pixel at `(100, 100)` is grabbed and reads
`pixel`, with threshold 3 and 2 ms of work. -/
def pixelTick (pixel : QRgb) : Tick :=
  ⟨100, 100, 1, 3, some ⟨1, 1, fun _ _ => pixel⟩, 2⟩

/-! ## Colour correction entry (`WizLedController::processColour`, lines 501-527) -/

/-- Values read from the five spin boxes by the correction pipeline; `F` is the
floating-point type. -/
structure CorrectionSettings (F : Type) where
  gamma : F
  saturation : F
  redFactor : F
  greenFactor : F
  blueFactor : F

/-- Condition of the `if` at lines 506-507: all three channels `< 5`, or all
three channels `> 250`. -/
def bypass (original : QColor) : Bool :=
  (decide (original.red < 5) && decide (original.green < 5) && decide (original.blue < 5)) ||
  (decide (original.red > 250) && decide (original.green > 250) && decide (original.blue > 250))

/-- Function `processColour`: black for an invalid colour, the original on the
bypass, otherwise the result of lines 511-526 (gamma, gains, clamp, HSL
saturation, back to RGB), which is floating-point code passed in as `pipeline`. -/
def processColour {F : Type} (pipeline : CorrectionSettings F → QColor → QColor)
    (settings : CorrectionSettings F) (original : QColor) : QColor :=
  if !original.valid then QColor.fromRgb 0 0 0
  else if bypass original then original
  else pipeline settings original

/-! ## UDP sender (`UdpSender::sendColour`, lines 43-55) -/

/-- Address value `QHostAddress`: `none` is the null address (what
`QHostAddress(ip)` is when `ip` is not an address literal), `some a` an address. -/
abbrev QHostAddress := Option Nat

/-- Members of `UdpSender` that `sendColour` reads and writes. -/
structure UdpSender where
  m_cachedIp : String
  m_cachedAddress : QHostAddress
deriving DecidableEq, Repr

/-- Freshly constructed sender: empty cached string, null cached address. -/
def UdpSender.fresh : UdpSender := ⟨"", none⟩

/-- Conversion `%d` of `snprintf`: the decimal rendering of an `int`. -/
def formatInt (i : Int) : List Char := (toString i).toList

/-- The format string of lines 45-47 with its four `%d` filled in. -/
def formatPayload (r g b dimming : Int) : List Char :=
  "\x7b\"id\":1,\"method\":\"setPilot\",\"params\":\x7b\"r\":".toList ++ formatInt r ++
  ",\"g\":".toList ++ formatInt g ++
  ",\"b\":".toList ++ formatInt b ++
  ",\"dimming\":".toList ++ formatInt dimming ++ "\x7d\x7d".toList

/-- Call `snprintf(buffer, size, ...)`: the characters stored in the buffer (at
most `size - 1`, before the terminator) and the returned length, which is the
length of the whole formatted text. -/
def snprintf (size : Nat) (formatted : List Char) : List Char × Int :=
  (formatted.take (size - 1), (formatted.length : Int))

/-- Arguments of one `m_socket.writeDatagram(buffer, len, address, port)` call;
`buffer` holds the characters `snprintf` stored, `port` is the value received by
the `quint16` parameter. -/
structure Datagram where
  buffer : List Char
  len : Int
  address : QHostAddress
  port : Int
deriving DecidableEq, Repr

/-- Effect of one `sendColour` call: the sender afterwards, whether
`QHostAddress(ip)` was evaluated, and the `writeDatagram` call made (`none` when
the call returns without one). -/
structure SendResult where
  sender : UdpSender
  resolved : Bool
  datagram : Option Datagram
deriving DecidableEq, Repr

/-- Conversion of the `int` argument `port` to the `quint16` port parameter of
`writeDatagram`. -/
def toUInt16 (i : Int) : Int := i % 2 ^ 16

/-- Function `sendColour(ip, port, colour, brightness)`; `resolve` is the
conversion `QHostAddress(ip)` of a host string to an address. -/
def sendColour (resolve : String → QHostAddress) (s : UdpSender) (ip : String) (port : Int)
    (colour : QColor) (brightness : Int) : SendResult :=
  let out := snprintf 128 (formatPayload colour.red colour.green colour.blue brightness)
  let differs : Bool := decide (s.m_cachedIp ≠ ip)
  let s := if differs then { m_cachedIp := ip, m_cachedAddress := resolve ip } else s
  { sender := s, resolved := differs,
    datagram := some { buffer := out.1, len := out.2, address := s.m_cachedAddress,
                       port := toUInt16 port } }

/-- Conversion `QHostAddress(ip)` on two host strings: the address literal
`192.168.50.110` (the default of `m_wizIp`) parses to its 32-bit value, any
other string (such as the host name `wiz-bulb.local`) gives the null address. -/
def literalResolve (ip : String) : QHostAddress :=
  if ip = "192.168.50.110" then some 0xC0A8326E else none

/-- One requested send: the arguments of a `sendColour` call. -/
structure SendRequest where
  ip : String
  port : Int
  colour : QColor
  brightness : Int

/-- Successive `sendColour` calls on one sender: the final sender and the
result of every call, oldest first. -/
def sendAll (resolve : String → QHostAddress) : UdpSender → List SendRequest → UdpSender × List SendResult
  | s, [] => (s, [])
  | s, q :: qs =>
    let r := sendColour resolve s q.ip q.port q.colour q.brightness
    let rest := sendAll resolve r.sender qs
    (rest.1, r :: rest.2)

/-- The null image: what `toImage()` returns when the conversion fails. -/
def nullImage : QImage := ⟨0, 0, fun _ _ => 0⟩

/-- A tick whose grab of the `m_size` x `m_size` region around `(100, 100)`
returns a non-null pixmap that converts to the null image (threshold 3, 2 ms
of work). -/
def failedImageTick (m_size : Int) : Tick :=
  ⟨100, 100, m_size, 3, some nullImage, 2⟩

/-! ## Arithmetic helpers -/

theorem qAbs_eq_abs (t : Int) : qAbs t = |t| := by
  unfold qAbs
  split_ifs with h
  · exact (abs_of_nonneg h).symm
  · exact (abs_of_neg (not_le.mp h)).symm

theorem channelDistance_self (c : QColor) : channelDistance c c = 0 := by
  simp [channelDistance, qAbs]

/-- C1: the change gate accepts a candidate exactly when the last accepted
colour is unset or the sum of absolute channel differences is strictly greater
than the threshold.  In particular: every candidate is accepted when the last
accepted colour is unset; a candidate identical to a set last accepted colour is
rejected for every threshold `t ≥ 0`; with last accepted `(0,0,0)` and
threshold 5 the candidate `(0,0,6)` is accepted and `(0,0,5)` is rejected. -/
theorem changeGate_accept_iff :
    (∀ (c L : QColor) (t : Int),
        changeGate c L t = true ↔
          (L.valid = false ∨
            |c.red - L.red| + |c.green - L.green| + |c.blue - L.blue| > t)) ∧
    (∀ (c L : QColor) (t : Int), L.valid = false → changeGate c L t = true) ∧
    (∀ (c : QColor) (t : Int), c.valid = true → 0 ≤ t → changeGate c c t = false) ∧
    changeGate ⟨true, 0, 0, 6⟩ ⟨true, 0, 0, 0⟩ 5 = true ∧
    changeGate ⟨true, 0, 0, 5⟩ ⟨true, 0, 0, 0⟩ 5 = false := by
  refine ⟨?_, ?_, ?_, by decide, by decide⟩
  · intro c L t
    simp only [changeGate, channelDistance, qAbs_eq_abs, Bool.or_eq_true,
      Bool.not_eq_true', decide_eq_true_eq]
  · intro c L t hL
    simp [changeGate, hL]
  · intro c t hc ht
    simp only [changeGate, channelDistance_self, hc, Bool.not_true, Bool.false_or,
      decide_eq_false_iff_not, not_lt]
    exact ht

/-! ## Payload of `sendColour` -/

theorem formatInt_natCast (n : Nat) : formatInt (n : Int) = (toString n).toList := rfl

theorem formatInt_natCast_length (n e : Nat) (he : 0 < e) (hn : n < 10 ^ e) :
    (formatInt (n : Int)).length ≤ e := by
  rw [formatInt_natCast]
  exact Nat.repr_length n e he hn

theorem formatPayload_length (r g b d : Int) :
    (formatPayload r g b d).length =
      65 + ((formatInt r).length + (formatInt g).length + (formatInt b).length +
        (formatInt d).length) := by
  simp only [formatPayload, List.length_append]
  have h1 : "\x7b\"id\":1,\"method\":\"setPilot\",\"params\":\x7b\"r\":".toList.length = 42 := by
    decide
  have h2 : ",\"g\":".toList.length = 5 := by decide
  have h3 : ",\"b\":".toList.length = 5 := by decide
  have h4 : ",\"dimming\":".toList.length = 11 := by decide
  have h5 : "\x7d\x7d".toList.length = 2 := by decide
  rw [h1, h2, h3, h4, h5]
  ring

/-- C2: for channels `r, g, b` in `[0, 255]` and brightness `d` in `[1, 100]` the
buffer handed to `writeDatagram` is exactly the text
`{"id":1,"method":"setPilot","params":{"r":R,"g":G,"b":B,"dimming":D}}` with
`R, G, B, D` the unpadded decimal renderings of `r, g, b, d` (the dimming field
is the brightness argument), and the length passed along is the length of that
text. -/
theorem sendColour_payload (resolve : String → QHostAddress) (s : UdpSender) (ip : String)
    (port : Int) (valid : Bool) (r g b d : Nat)
    (hr : r ≤ 255) (hg : g ≤ 255) (hb : b ≤ 255) (hd1 : 1 ≤ d) (hd : d ≤ 100) :
    (sendColour resolve s ip port ⟨valid, r, g, b⟩ d).datagram.map (fun w => w.buffer) =
      some ("\x7b\"id\":1,\"method\":\"setPilot\",\"params\":\x7b\"r\":" ++ toString r ++
        ",\"g\":" ++ toString g ++ ",\"b\":" ++ toString b ++
        ",\"dimming\":" ++ toString d ++ "\x7d\x7d").toList ∧
    (sendColour resolve s ip port ⟨valid, r, g, b⟩ d).datagram.map (fun w => w.len) =
      (sendColour resolve s ip port ⟨valid, r, g, b⟩ d).datagram.map
        (fun w => (w.buffer.length : Int)) := by
  have hlen : (formatPayload r g b d).length ≤ 128 - 1 := by
    rw [formatPayload_length]
    have h1 := formatInt_natCast_length r 3 (by norm_num) (by omega)
    have h2 := formatInt_natCast_length g 3 (by norm_num) (by omega)
    have h3 := formatInt_natCast_length b 3 (by norm_num) (by omega)
    have h4 := formatInt_natCast_length d 3 (by norm_num) (by omega)
    omega
  have htake : List.take (128 - 1) (formatPayload r g b d) = formatPayload r g b d :=
    List.take_of_length_le hlen
  simp only [sendColour, snprintf, Option.map_some', htake, true_and, and_true]
  simp only [formatPayload, formatInt_natCast, String.toList, String.data_append]

/-- Instance of `sendColour_payload`: colour `(10, 20, 30)` with brightness 75
is sent as `{"id":1,"method":"setPilot","params":{"r":10,"g":20,"b":30,"dimming":75}}`,
73 characters long. -/
theorem sendColour_payload_witness :
    (sendColour literalResolve UdpSender.fresh "192.168.50.110" 38899
        ⟨true, 10, 20, 30⟩ 75).datagram.map (fun w => w.buffer) =
      some "\x7b\"id\":1,\"method\":\"setPilot\",\"params\":\x7b\"r\":10,\"g\":20,\"b\":30,\"dimming\":75\x7d\x7d".toList ∧
    (sendColour literalResolve UdpSender.fresh "192.168.50.110" 38899
        ⟨true, 10, 20, 30⟩ 75).datagram.map (fun w => w.len) = some 73 := by
  have h := sendColour_payload literalResolve UdpSender.fresh "192.168.50.110" 38899 true
    10 20 30 75 (by decide) (by decide) (by decide) (by decide) (by decide)
  simp only [Nat.cast_ofNat] at h
  refine ⟨?_, ?_⟩
  · rw [h.1]; decide
  · rw [h.2]; decide

/-! ## Bypass of `processColour` -/

/-- C3: for a valid colour whose three channels are all `< 5`, or all `> 250`,
`processColour` returns the colour unchanged whatever the correction pipeline
and its gamma, saturation and gain settings are; a valid colour that has some
channel `≥ 5` and some channel `≤ 250` is not bypassed and is handed to the
correction pipeline. -/
theorem processColour_bypass {F : Type} (pipeline : CorrectionSettings F → QColor → QColor)
    (settings : CorrectionSettings F) (c : QColor) (hvalid : c.valid = true) :
    (((c.red < 5 ∧ c.green < 5 ∧ c.blue < 5) ∨ (c.red > 250 ∧ c.green > 250 ∧ c.blue > 250)) →
      processColour pipeline settings c = c) ∧
    (((5 ≤ c.red ∨ 5 ≤ c.green ∨ 5 ≤ c.blue) ∧ (c.red ≤ 250 ∨ c.green ≤ 250 ∨ c.blue ≤ 250)) →
      processColour pipeline settings c = pipeline settings c) := by
  constructor
  · intro h
    have hb : bypass c = true := by
      simp only [bypass, Bool.or_eq_true, Bool.and_eq_true, decide_eq_true_eq]
      tauto
    simp [processColour, hvalid, hb]
  · intro h
    have hb : bypass c = false := by
      rw [← Bool.not_eq_true]
      simp only [bypass, Bool.or_eq_true, Bool.and_eq_true, decide_eq_true_eq]
      omega
    simp [processColour, hvalid, hb]

/-- Instances of `processColour_bypass` with a pipeline that always answers
`(9, 9, 9)`: `(3, 4, 0)` and `(251, 255, 252)` come back unchanged, while
`(3, 4, 200)` (two channels below 5) and `(251, 255, 100)` (two channels above
250) are handed to the pipeline. -/
theorem processColour_bypass_witness :
    processColour (fun (_ : CorrectionSettings Nat) _ => ⟨true, 9, 9, 9⟩) ⟨6, 18, 12, 10, 12⟩
        ⟨true, 3, 4, 0⟩ = ⟨true, 3, 4, 0⟩ ∧
    processColour (fun (_ : CorrectionSettings Nat) _ => ⟨true, 9, 9, 9⟩) ⟨6, 18, 12, 10, 12⟩
        ⟨true, 251, 255, 252⟩ = ⟨true, 251, 255, 252⟩ ∧
    processColour (fun (_ : CorrectionSettings Nat) _ => ⟨true, 9, 9, 9⟩) ⟨6, 18, 12, 10, 12⟩
        ⟨true, 3, 4, 200⟩ = ⟨true, 9, 9, 9⟩ ∧
    processColour (fun (_ : CorrectionSettings Nat) _ => ⟨true, 9, 9, 9⟩) ⟨6, 18, 12, 10, 12⟩
        ⟨true, 251, 255, 100⟩ = ⟨true, 9, 9, 9⟩ :=
  ⟨(processColour_bypass _ _ ⟨true, 3, 4, 0⟩ rfl).1 (by decide),
   (processColour_bypass _ _ ⟨true, 251, 255, 252⟩ rfl).1 (by decide),
   (processColour_bypass _ _ ⟨true, 3, 4, 200⟩ rfl).2 (by decide),
   (processColour_bypass _ _ ⟨true, 251, 255, 100⟩ rfl).2 (by decide)⟩

/-! ## Averaging loop -/

theorem qRed_le (p : QRgb) : qRed p ≤ 255 := Nat.and_le_right

theorem qGreen_le (p : QRgb) : qGreen p ≤ 255 := Nat.and_le_right

theorem qBlue_le (p : QRgb) : qBlue p ≤ 255 := Nat.and_le_right

theorem sumImage_eq_foldl (image : QImage) :
    sumImage image = image.pixels.foldl addPixel ⟨0, 0, 0, 0⟩ := by
  unfold sumImage QImage.pixels
  rw [List.foldl_flatten, List.foldl_map]
  congr 1
  funext acc y
  unfold sumLine
  rw [List.foldl_map]

theorem pixels_length (image : QImage) :
    image.pixels.length = image.height * image.width := by
  unfold QImage.pixels
  rw [List.length_flatten, List.map_map]
  have h : (List.length ∘ fun y => (List.range image.width).map (fun x => image.scanLine y x))
      = Function.const Nat image.width := by
    funext y
    simp
  rw [h, List.map_const, List.sum_const_nat, List.length_range]

theorem mem_pixels (image : QImage) (p : QRgb) (hp : p ∈ image.pixels) :
    ∃ y x, y < image.height ∧ x < image.width ∧ image.scanLine y x = p := by
  unfold QImage.pixels at hp
  simp only [List.mem_flatten, List.mem_map, List.mem_range] at hp
  obtain ⟨l, ⟨y, hy, rfl⟩, hp⟩ := hp
  simp only [List.mem_map, List.mem_range] at hp
  obtain ⟨x, hx, rfl⟩ := hp
  exact ⟨y, x, hy, hx, rfl⟩

theorem foldl_addPixel (l : List QRgb) (t : Totals)
    (hr : t.rTotal < 2 ^ 64) (hg : t.gTotal < 2 ^ 64) (hb : t.bTotal < 2 ^ 64) :
    l.foldl addPixel t =
      { rTotal := (t.rTotal + (l.map qRed).sum) % 2 ^ 64
        gTotal := (t.gTotal + (l.map qGreen).sum) % 2 ^ 64
        bTotal := (t.bTotal + (l.map qBlue).sum) % 2 ^ 64
        pixelCount := t.pixelCount + l.length } := by
  induction l generalizing t with
  | nil =>
    cases t
    simp only [List.foldl_nil, List.map_nil, List.sum_nil, Nat.add_zero, List.length_nil,
      Nat.cast_zero, Int.add_zero] at *
    rw [Nat.mod_eq_of_lt hr, Nat.mod_eq_of_lt hg, Nat.mod_eq_of_lt hb]
  | cons p ps ih =>
    rw [List.foldl_cons, ih (addPixel t p) (Nat.mod_lt _ (by norm_num))
      (Nat.mod_lt _ (by norm_num)) (Nat.mod_lt _ (by norm_num))]
    simp only [addPixel, List.map_cons, List.sum_cons, List.length_cons, Nat.mod_add_mod,
      Nat.cast_add, Nat.cast_one]
    congr 1 <;> ring_nf

theorem sumImage_eq (image : QImage) :
    sumImage image =
      { rTotal := (image.pixels.map qRed).sum % 2 ^ 64
        gTotal := (image.pixels.map qGreen).sum % 2 ^ 64
        bTotal := (image.pixels.map qBlue).sum % 2 ^ 64
        pixelCount := (image.pixels.length : Int) } := by
  rw [sumImage_eq_foldl, foldl_addPixel _ _ (by norm_num) (by norm_num) (by norm_num)]
  simp

theorem sum_map_const_of_forall {α : Type} (f : α → Nat) (v : Nat) (l : List α)
    (h : ∀ a ∈ l, f a = v) : (l.map f).sum = l.length * v := by
  induction l with
  | nil => simp
  | cons a as ih =>
    have ha : f a = v := h a (List.mem_cons_self a as)
    have has : ∀ x ∈ as, f x = v := fun x hx => h x (List.mem_cons_of_mem a hx)
    rw [List.map_cons, List.sum_cons, ih has, ha, List.length_cons]
    ring

theorem toUInt64_natCast (n : Nat) (hn : n < 2 ^ 64) : toUInt64 (n : Int) = n := by
  unfold toUInt64
  have h : ((n : Int) % 2 ^ 64) = (n : Int) := Int.emod_eq_of_lt (by positivity) (by exact_mod_cast hn)
  rw [h]
  simp

theorem toInt32_small (n : Nat) (hn : n < 2 ^ 31) : toInt32 n = (n : Int) := by
  unfold toInt32
  have h : n % 2 ^ 32 = n := Nat.mod_eq_of_lt (by omega)
  rw [h, if_pos hn]

theorem meanColour_uniform (image : QImage) (r g b : Nat)
    (hw : 1 ≤ image.width) (hh : 1 ≤ image.height)
    (hcount : image.width * image.height < 2 ^ 31)
    (huniform : ∀ y x, y < image.height → x < image.width →
      qRed (image.scanLine y x) = r ∧ qGreen (image.scanLine y x) = g ∧
        qBlue (image.scanLine y x) = b) :
    meanColour (sumImage image) = ⟨true, r, g, b⟩ := by
  obtain ⟨hr0, hg0, hb0⟩ := huniform 0 0 hh hw
  have hr : r ≤ 255 := hr0 ▸ qRed_le _
  have hg : g ≤ 255 := hg0 ▸ qGreen_le _
  have hb : b ≤ 255 := hb0 ▸ qBlue_le _
  have hlen : image.pixels.length = image.height * image.width := pixels_length image
  have hn : image.pixels.length < 2 ^ 31 := by rw [hlen, Nat.mul_comm]; exact hcount
  have hpos : 0 < image.pixels.length := by rw [hlen]; exact Nat.mul_pos hh hw
  have hsr : (image.pixels.map qRed).sum = image.pixels.length * r :=
    sum_map_const_of_forall qRed r _ (fun p hp => by
      obtain ⟨y, x, hy, hx, rfl⟩ := mem_pixels image p hp
      exact (huniform y x hy hx).1)
  have hsg : (image.pixels.map qGreen).sum = image.pixels.length * g :=
    sum_map_const_of_forall qGreen g _ (fun p hp => by
      obtain ⟨y, x, hy, hx, rfl⟩ := mem_pixels image p hp
      exact (huniform y x hy hx).2.1)
  have hsb : (image.pixels.map qBlue).sum = image.pixels.length * b :=
    sum_map_const_of_forall qBlue b _ (fun p hp => by
      obtain ⟨y, x, hy, hx, rfl⟩ := mem_pixels image p hp
      exact (huniform y x hy hx).2.2)
  have hbig : ∀ v : Nat, v ≤ 255 → image.pixels.length * v < 2 ^ 64 := by
    intro v hv
    calc image.pixels.length * v ≤ 2 ^ 31 * 255 := Nat.mul_le_mul hn.le hv
      _ < 2 ^ 64 := by norm_num
  rw [sumImage_eq, hsr, hsg, hsb, Nat.mod_eq_of_lt (hbig r hr), Nat.mod_eq_of_lt (hbig g hg),
    Nat.mod_eq_of_lt (hbig b hb)]
  unfold meanColour
  have hcnt : ((image.pixels.length : Nat) : Int) > 0 := by exact_mod_cast hpos
  simp only [hcnt, if_true]
  rw [toUInt64_natCast _ (by omega), Nat.mul_div_cancel_left r hpos,
    Nat.mul_div_cancel_left g hpos, Nat.mul_div_cancel_left b hpos,
    toInt32_small r (by omega), toInt32_small g (by omega), toInt32_small b (by omega)]
  unfold QColor.fromRgb
  rw [if_pos]
  omega

/-- C4: when every pixel of the captured image (width and height at least 1,
pixel count within the range of the `int` counter) has the same channels
`(r, g, b)`, the colour sampled by `run` is exactly `(r, g, b)`: whatever path
the capture rectangle selects (single pixel or averaging), and as the value of
`currentColour` after an iteration that grabbed this image. -/
theorem sample_uniform_image (screenRect : QRect) (s : LoopState) (e : Tick) (image : QImage)
    (r g b : Nat)
    (hw : 1 ≤ image.width) (hh : 1 ≤ image.height)
    (hcount : image.width * image.height < 2 ^ 31)
    (huniform : ∀ y x, y < image.height → x < image.width →
      qRed (image.scanLine y x) = r ∧ qGreen (image.scanLine y x) = g ∧
        qBlue (image.scanLine y x) = b)
    (hrect : (captureRectOf e.m_x e.m_y e.m_size screenRect).isEmpty = false)
    (hpixmap : e.pixmap = some image) :
    (∀ captureRect : QRect, sampleColour captureRect image = some ⟨true, r, g, b⟩) ∧
    (iteration screenRect s e).1.currentColour = ⟨true, r, g, b⟩ := by
  have hnull : image.isNull = false := by
    simp only [QImage.isNull, Bool.or_eq_false_iff, beq_eq_false_iff_ne]
    omega
  have hsample : ∀ captureRect : QRect, sampleColour captureRect image = some ⟨true, r, g, b⟩ := by
    intro captureRect
    unfold sampleColour
    split_ifs with h1 h2
    · obtain ⟨hr0, hg0, hb0⟩ := huniform 0 0 hh hw
      have h0 : (decide (0 ≥ image.width) = false) ∧ (decide (0 ≥ image.height) = false) := by
        constructor <;> simp <;> omega
      simp only [QImage.pixelColor, hnull, h0.1, h0.2, Bool.or_self, Bool.false_eq_true,
        if_false, hr0, hg0, hb0]
    · rw [hnull] at h2
      exact absurd h2 (by decide)
    · rw [meanColour_uniform image r g b hw hh hcount huniform]
  refine ⟨hsample, ?_⟩
  simp only [iteration, hrect, hpixmap, hsample, validOrBlack, Bool.false_eq_true, if_false,
    Bool.not_true]
  split_ifs <;> rfl

/-- Instance of `sample_uniform_image`: a 10 x 10 grab of the 1920 x 1080 screen
in which every pixel is `0xff102030` samples to `(16, 32, 48)`, on the
single-pixel path, on the averaging path, and as `currentColour` of the
iteration. -/
theorem sample_uniform_image_witness :
    sampleColour ⟨5, 5, 5, 5⟩ ⟨10, 10, fun _ _ => 0xff102030⟩ = some ⟨true, 16, 32, 48⟩ ∧
    sampleColour ⟨95, 95, 104, 104⟩ ⟨10, 10, fun _ _ => 0xff102030⟩ = some ⟨true, 16, 32, 48⟩ ∧
    (iteration ⟨0, 0, 1919, 1079⟩ (initialState 0)
      ⟨100, 100, 10, 3, some ⟨10, 10, fun _ _ => 0xff102030⟩, 2⟩).1.currentColour =
        ⟨true, 16, 32, 48⟩ := by
  have h := sample_uniform_image ⟨0, 0, 1919, 1079⟩ (initialState 0)
    ⟨100, 100, 10, 3, some ⟨10, 10, fun _ _ => 0xff102030⟩, 2⟩
    ⟨10, 10, fun _ _ => 0xff102030⟩ 16 32 48 (by decide) (by decide) (by decide)
    (fun _ _ _ _ =>
      (by decide : qRed 0xff102030 = 16 ∧ qGreen 0xff102030 = 32 ∧ qBlue 0xff102030 = 48))
    (by decide) rfl
  exact ⟨h.1 _, h.1 _, h.2⟩

/-! ## Address cache of `sendColour` -/

theorem sendColour_resolved_iff (resolve : String → QHostAddress) (s : UdpSender) (ip : String)
    (port : Int) (colour : QColor) (brightness : Int) :
    (sendColour resolve s ip port colour brightness).resolved = true ↔ ip ≠ s.m_cachedIp := by
  simp only [sendColour, decide_eq_true_eq]
  exact ⟨fun h => Ne.symm h, fun h => Ne.symm h⟩

theorem sendColour_cachedIp (resolve : String → QHostAddress) (s : UdpSender) (ip : String)
    (port : Int) (colour : QColor) (brightness : Int) :
    (sendColour resolve s ip port colour brightness).sender.m_cachedIp = ip := by
  simp only [sendColour]
  by_cases h : s.m_cachedIp = ip
  · simp [h]
  · simp [h]

theorem sendAll_resolved (resolve : String → QHostAddress) (s : UdpSender)
    (qs : List SendRequest) :
    (sendAll resolve s qs).2.map (fun r => r.resolved) =
      List.zipWith (fun previous q => decide (q.ip ≠ previous))
        (s.m_cachedIp :: qs.map (fun q => q.ip)) qs := by
  induction qs generalizing s with
  | nil => simp [sendAll]
  | cons q qs ih =>
    simp only [sendAll, List.map_cons, List.zipWith_cons_cons]
    rw [ih, sendColour_cachedIp]
    congr 1
    simp only [sendColour]
    by_cases h : s.m_cachedIp = q.ip
    · simp [h]
    · simp [h, Ne.symm h]

theorem sendAll_cachedIp (resolve : String → QHostAddress) (s : UdpSender)
    (qs : List SendRequest) :
    (sendAll resolve s qs).1.m_cachedIp = ((s.m_cachedIp :: qs.map (fun q => q.ip)).getLast
      (List.cons_ne_nil _ _)) := by
  induction qs generalizing s with
  | nil => simp [sendAll]
  | cons q qs ih =>
    simp only [sendAll, List.map_cons]
    rw [ih, sendColour_cachedIp, List.getLast_cons (List.cons_ne_nil _ _)]

theorem sendColour_of_ne (resolve : String → QHostAddress) (s : UdpSender) (ip : String)
    (port : Int) (colour : QColor) (brightness : Int) (h : ip ≠ s.m_cachedIp) :
    (sendColour resolve s ip port colour brightness).sender = ⟨ip, resolve ip⟩ ∧
    (sendColour resolve s ip port colour brightness).datagram.map (fun w => w.address) =
      some (resolve ip) := by
  simp [sendColour, Ne.symm h]

theorem sendColour_of_eq (resolve : String → QHostAddress) (s : UdpSender) (ip : String)
    (port : Int) (colour : QColor) (brightness : Int) (h : ip = s.m_cachedIp) :
    (sendColour resolve s ip port colour brightness).sender = s ∧
    (sendColour resolve s ip port colour brightness).datagram.map (fun w => w.address) =
      some s.m_cachedAddress ∧
    (∀ other : String → QHostAddress,
      sendColour other s ip port colour brightness =
        sendColour resolve s ip port colour brightness) := by
  simp [sendColour, h]

theorem sendColour_datagram_address (resolve : String → QHostAddress) (s : UdpSender)
    (ip : String) (port : Int) (colour : QColor) (brightness : Int) :
    (sendColour resolve s ip port colour brightness).datagram.map (fun w => w.address) =
      some (sendColour resolve s ip port colour brightness).sender.m_cachedAddress := by
  simp only [sendColour, Option.map_some']

theorem sendColour_cache_consistent (resolve : String → QHostAddress) (s : UdpSender)
    (ip : String) (port : Int) (colour : QColor) (brightness : Int)
    (hs : s = UdpSender.fresh ∨ s.m_cachedAddress = resolve s.m_cachedIp) :
    (sendColour resolve s ip port colour brightness).sender = UdpSender.fresh ∨
    (sendColour resolve s ip port colour brightness).sender.m_cachedAddress =
      resolve (sendColour resolve s ip port colour brightness).sender.m_cachedIp := by
  by_cases h : ip = s.m_cachedIp
  · rw [(sendColour_of_eq resolve s ip port colour brightness h).1]
    exact hs
  · rw [(sendColour_of_ne resolve s ip port colour brightness h).1]
    exact Or.inr rfl

theorem sendAll_addresses (resolve : String → QHostAddress) (s : UdpSender)
    (hs : s = UdpSender.fresh ∨ s.m_cachedAddress = resolve s.m_cachedIp)
    (qs : List SendRequest) :
    ∀ p ∈ qs.zip (sendAll resolve s qs).2,
      p.2.sender.m_cachedIp = p.1.ip ∧
      p.2.datagram.map (fun w => w.address) = some p.2.sender.m_cachedAddress ∧
      (p.2.sender = UdpSender.fresh ∨ p.2.sender.m_cachedAddress = resolve p.1.ip) := by
  induction qs generalizing s with
  | nil =>
    intro p hp
    simp [sendAll] at hp
  | cons q qs ih =>
    intro p hp
    simp only [sendAll, List.zip_cons_cons, List.mem_cons] at hp
    have hnext := sendColour_cache_consistent resolve s q.ip q.port q.colour q.brightness hs
    rcases hp with rfl | hp
    · refine ⟨sendColour_cachedIp resolve s q.ip q.port q.colour q.brightness,
        sendColour_datagram_address resolve s q.ip q.port q.colour q.brightness, ?_⟩
      rw [sendColour_cachedIp] at hnext
      exact hnext
    · exact ih _ hnext p hp

/-- C5: a `sendColour` call evaluates `QHostAddress(ip)` exactly when `ip`
differs from the cached host string, and afterwards the cached host string is
`ip`.  When `ip` differs, the cached address and the address the datagram is
sent to are the result of resolving `ip`; when `ip` equals the cached string, the
sender is left as it was, the datagram goes to the address already cached, and
the whole outcome is the same under every resolver (no resolution is
consulted).  Hence, from a fresh sender (cached string empty), the sends of any
sequence that resolve are exactly those whose host string differs from the host
string of the previous send (the empty string for the first send), every
datagram goes to the cached address, which is the resolution of the host string
of that send (or the sender is still fresh), and the cached string at the end is
the last host string used.  Of two consecutive sends, the second does not
resolve when it repeats the host string of the first (it is sent to the address
the first one cached, whatever the resolver answers), and resolves its own host
string when that differs. -/
theorem sendColour_address_cache (resolve : String → QHostAddress) :
    (∀ (s : UdpSender) (ip : String) (port : Int) (colour : QColor) (brightness : Int),
      ((sendColour resolve s ip port colour brightness).resolved = true ↔ ip ≠ s.m_cachedIp) ∧
      (sendColour resolve s ip port colour brightness).sender.m_cachedIp = ip ∧
      (ip ≠ s.m_cachedIp →
        (sendColour resolve s ip port colour brightness).sender.m_cachedAddress = resolve ip ∧
        (sendColour resolve s ip port colour brightness).datagram.map (fun w => w.address) =
          some (resolve ip)) ∧
      (ip = s.m_cachedIp →
        (sendColour resolve s ip port colour brightness).sender = s ∧
        (sendColour resolve s ip port colour brightness).datagram.map (fun w => w.address) =
          some s.m_cachedAddress ∧
        (∀ other : String → QHostAddress,
          sendColour other s ip port colour brightness =
            sendColour resolve s ip port colour brightness))) ∧
    (∀ qs : List SendRequest,
      (sendAll resolve UdpSender.fresh qs).2.map (fun r => r.resolved) =
        List.zipWith (fun previous q => decide (q.ip ≠ previous))
          ("" :: qs.map (fun q => q.ip)) qs ∧
      (sendAll resolve UdpSender.fresh qs).1.m_cachedIp =
        ("" :: qs.map (fun q => q.ip)).getLast (List.cons_ne_nil _ _) ∧
      (∀ p ∈ qs.zip (sendAll resolve UdpSender.fresh qs).2,
        p.2.sender.m_cachedIp = p.1.ip ∧
        p.2.datagram.map (fun w => w.address) = some p.2.sender.m_cachedAddress ∧
        (p.2.sender = UdpSender.fresh ∨ p.2.sender.m_cachedAddress = resolve p.1.ip))) ∧
    (∀ (s : UdpSender) (q1 q2 : SendRequest),
      (q2.ip = q1.ip →
        (sendAll resolve s [q1, q2]).2.map (fun r => r.resolved) =
          [decide (q1.ip ≠ s.m_cachedIp), false] ∧
        (sendAll resolve s [q1, q2]).1 =
          (sendColour resolve s q1.ip q1.port q1.colour q1.brightness).sender ∧
        (∀ other : String → QHostAddress,
          sendColour other (sendColour resolve s q1.ip q1.port q1.colour q1.brightness).sender
              q2.ip q2.port q2.colour q2.brightness =
            sendColour resolve (sendColour resolve s q1.ip q1.port q1.colour q1.brightness).sender
              q2.ip q2.port q2.colour q2.brightness)) ∧
      (q2.ip ≠ q1.ip →
        (sendAll resolve s [q1, q2]).2.map (fun r => r.resolved) =
          [decide (q1.ip ≠ s.m_cachedIp), true] ∧
        (sendAll resolve s [q1, q2]).1 = ⟨q2.ip, resolve q2.ip⟩)) := by
  refine ⟨fun s ip port colour brightness =>
      ⟨sendColour_resolved_iff resolve s ip port colour brightness,
        sendColour_cachedIp resolve s ip port colour brightness,
        fun h => ⟨by rw [(sendColour_of_ne resolve s ip port colour brightness h).1],
          (sendColour_of_ne resolve s ip port colour brightness h).2⟩,
        fun h => sendColour_of_eq resolve s ip port colour brightness h⟩,
    fun qs => ⟨sendAll_resolved resolve UdpSender.fresh qs,
      sendAll_cachedIp resolve UdpSender.fresh qs,
      sendAll_addresses resolve UdpSender.fresh (Or.inl rfl) qs⟩, ?_⟩
  intro s q1 q2
  have hc := sendColour_cachedIp resolve s q1.ip q1.port q1.colour q1.brightness
  constructor
  · intro h
    have heq : q2.ip =
        (sendColour resolve s q1.ip q1.port q1.colour q1.brightness).sender.m_cachedIp := by
      rw [hc]; exact h
    have h2 := sendColour_of_eq resolve
      (sendColour resolve s q1.ip q1.port q1.colour q1.brightness).sender
      q2.ip q2.port q2.colour q2.brightness heq
    refine ⟨?_, ?_, h2.2.2⟩
    · rw [sendAll_resolved]
      simp [h]
    · simp only [sendAll]
      exact h2.1
  · intro h
    have hne : q2.ip ≠
        (sendColour resolve s q1.ip q1.port q1.colour q1.brightness).sender.m_cachedIp := by
      rw [hc]; exact h
    have h2 := sendColour_of_ne resolve
      (sendColour resolve s q1.ip q1.port q1.colour q1.brightness).sender
      q2.ip q2.port q2.colour q2.brightness hne
    refine ⟨?_, ?_⟩
    · rw [sendAll_resolved]
      simp [h]
    · simp only [sendAll]
      exact h2.1

/-! ## Capture rectangle -/

theorem QRect.isEmpty_null : QRect.null.isEmpty = true := by decide

theorem QRect.width_height_of_not_isEmpty (r : QRect) (h : r.isEmpty = false) :
    1 ≤ r.width ∧ 1 ≤ r.height := by
  simp only [QRect.isEmpty, Bool.or_eq_false_iff, decide_eq_false_iff_not, not_lt] at h
  simp only [QRect.width, QRect.height]
  omega

theorem QRect.contains_of_bounds (a c : QRect) (ha : a.isNull = false)
    (hx : c.x1 ≤ c.x2) (hy : c.y1 ≤ c.y2)
    (hl : a.normLeft ≤ c.x1) (hr : c.x2 ≤ a.normRight)
    (ht : a.normTop ≤ c.y1) (hb : c.y2 ≤ a.normBottom) : a.contains c = true := by
  have hc : c.isNull = false := by
    simp only [QRect.isNull, Bool.and_eq_false_iff, beq_eq_false_iff_ne]
    left
    omega
  have e1 : c.normLeft = c.x1 := by unfold QRect.normLeft; rw [if_neg (by omega)]
  have e2 : c.normRight = c.x2 := by unfold QRect.normRight; rw [if_neg (by omega)]
  have e3 : c.normTop = c.y1 := by unfold QRect.normTop; rw [if_neg (by omega)]
  have e4 : c.normBottom = c.y2 := by unfold QRect.normBottom; rw [if_neg (by omega)]
  unfold QRect.contains
  rw [ha, hc, e1, e2, e3, e4]
  rw [if_neg (by decide), if_neg (by omega), if_neg (by omega)]

theorem QRect.contains_intersected (a r : QRect) (h : (a.intersected r).isEmpty = false) :
    r.contains (a.intersected r) = true := by
  unfold QRect.intersected at h ⊢
  split_ifs at h ⊢ with h1 h2 h3
  · exact absurd h (by decide)
  · exact absurd h (by decide)
  · exact absurd h (by decide)
  · simp only [QRect.isEmpty, Bool.or_eq_false_iff, decide_eq_false_iff_not, not_lt] at h
    simp only [Bool.or_eq_true, not_or, Bool.not_eq_true] at h1
    exact QRect.contains_of_bounds r _ h1.2 h.1 h.2 (le_max_right _ _) (min_le_right _ _)
      (le_max_right _ _) (min_le_right _ _)

theorem captureRectOf_eq (m_x m_y m_size : Int) (screenRect : QRect) :
    captureRectOf m_x m_y m_size screenRect =
      (if m_size ≤ 0 then
          QRect.setRect (m_x - Int.tdiv m_size 2) (m_y - Int.tdiv m_size 2) 1 1
        else
          QRect.setRect (m_x - Int.tdiv m_size 2) (m_y - Int.tdiv m_size 2) m_size m_size
        ).intersected screenRect := by
  unfold captureRectOf
  simp only [QRect.setRect, QRect.width, QRect.height, QRect.setWidth, QRect.setHeight]
  have h : ∀ v : Int, v + m_size - 1 - v + 1 = m_size := fun v => by ring
  simp only [h, or_self]

/-- C6: the capture rectangle is `[x - size/2, y - size/2, size, size]`, with
width and height forced to 1 when `size <= 0`, intersected with the display
rectangle.  When that intersection is empty the iteration emits no colour and
leaves `lastColour` and `currentColour` as they were (no default colour is
substituted); when it is not empty, the rectangle handed to the grab has width
and height at least 1 and lies inside the display rectangle. -/
theorem iteration_empty_capture_rect (screenRect : QRect) (s : LoopState) (e : Tick) :
    captureRectOf e.m_x e.m_y e.m_size screenRect =
      (if e.m_size ≤ 0 then
          QRect.setRect (e.m_x - Int.tdiv e.m_size 2) (e.m_y - Int.tdiv e.m_size 2) 1 1
        else
          QRect.setRect (e.m_x - Int.tdiv e.m_size 2) (e.m_y - Int.tdiv e.m_size 2)
            e.m_size e.m_size).intersected screenRect ∧
    ((captureRectOf e.m_x e.m_y e.m_size screenRect).isEmpty = true →
      (iteration screenRect s e).2 = none ∧
      (iteration screenRect s e).1.lastColour = s.lastColour ∧
      (iteration screenRect s e).1.currentColour = s.currentColour) ∧
    ((captureRectOf e.m_x e.m_y e.m_size screenRect).isEmpty = false →
      1 ≤ (captureRectOf e.m_x e.m_y e.m_size screenRect).width ∧
      1 ≤ (captureRectOf e.m_x e.m_y e.m_size screenRect).height ∧
      screenRect.contains (captureRectOf e.m_x e.m_y e.m_size screenRect) = true) := by
  refine ⟨captureRectOf_eq _ _ _ _, ?_, ?_⟩
  · intro h
    simp [iteration, h, skipTick]
  · intro h
    refine ⟨(QRect.width_height_of_not_isEmpty _ h).1,
      (QRect.width_height_of_not_isEmpty _ h).2, ?_⟩
    unfold captureRectOf at h ⊢
    exact QRect.contains_intersected _ _ h

/-- Concrete capture rectangles on the 1920 x 1080 screen: a 10 x 10 region
around `(100, 100)` is kept whole, one around `(0, 0)` is clipped to 5 x 5, size
0 is forced to a single pixel, and a region around `(5000, 5000)` is empty, in
which case the iteration emits nothing and keeps its colours. -/
theorem captureRectOf_examples :
    captureRectOf 100 100 10 ⟨0, 0, 1919, 1079⟩ = ⟨95, 95, 104, 104⟩ ∧
    captureRectOf 0 0 10 ⟨0, 0, 1919, 1079⟩ = ⟨0, 0, 4, 4⟩ ∧
    captureRectOf 7 9 0 ⟨0, 0, 1919, 1079⟩ = ⟨7, 9, 7, 9⟩ ∧
    (captureRectOf 5000 5000 10 ⟨0, 0, 1919, 1079⟩).isEmpty = true ∧
    iteration ⟨0, 0, 1919, 1079⟩ ⟨⟨true, 1, 2, 3⟩, ⟨true, 4, 5, 6⟩, 40, 30⟩
        ⟨5000, 5000, 10, 3, some ⟨10, 10, fun _ _ => 0xff102030⟩, 2⟩ =
      (⟨⟨true, 1, 2, 3⟩, ⟨true, 4, 5, 6⟩, 58, 30⟩, none) := by
  refine ⟨by decide, by decide, by decide, by decide, by decide⟩

/-! ## Pacing of the capture loop -/

theorem sleepTime_eq : sleepTime = 16 := by decide

theorem iteration_steadyTick_clock (s : LoopState) (w : Int) :
    (iteration fullHD s (steadyTick w)).1.now = (paceTick (s.now + w) s.timerStart).1 ∧
    (iteration fullHD s (steadyTick w)).1.timerStart = (paceTick (s.now + w) s.timerStart).2 := by
  have hrect : captureRectOf 100 100 1 fullHD = ⟨100, 100, 100, 100⟩ := by decide
  have hsample : sampleColour ⟨100, 100, 100, 100⟩ ⟨1, 1, fun _ _ => 0xff102030⟩ =
      some ⟨true, 16, 32, 48⟩ := by decide
  have hempty : QRect.isEmpty ⟨100, 100, 100, 100⟩ = false := by decide
  simp only [iteration, steadyTick, hrect, hsample, hempty, Bool.false_eq_true, if_false]
  split_ifs <;> exact ⟨rfl, rfl⟩

theorem iteration_steadyTick_pair (s : LoopState) (w : Int) (hw0 : 0 ≤ w) (hw : w < 16)
    (hs : s.timerStart = s.now) :
    (iteration fullHD (iteration fullHD s (steadyTick w)).1 (steadyTick w)).1.now =
      s.now + (16 + w) ∧
    (iteration fullHD (iteration fullHD s (steadyTick w)).1 (steadyTick w)).1.timerStart =
      s.now + (16 + w) := by
  have p1 : paceTick (s.now + w) s.now = (s.now + 16, s.now + w) := by
    simp only [paceTick, sleepTime_eq]
    rw [if_pos (by omega)]
    congr 1
    ring
  have p2 : paceTick (s.now + 16 + w) (s.now + w) = (s.now + (16 + w), s.now + (16 + w)) := by
    simp only [paceTick, sleepTime_eq]
    rw [if_neg (by omega)]
    congr 1 <;> ring
  obtain ⟨h1, h2⟩ := iteration_steadyTick_clock s w
  obtain ⟨h3, h4⟩ := iteration_steadyTick_clock (iteration fullHD s (steadyTick w)).1 w
  rw [hs, p1] at h1 h2
  rw [h1, h2, p2] at h3 h4
  exact ⟨h3, h4⟩

theorem runLoop_steady_now (n : Nat) (s : LoopState) (w : Int) (hw0 : 0 ≤ w) (hw : w < 16)
    (hs : s.timerStart = s.now) :
    (runLoop fullHD s (List.replicate (2 * n) (steadyTick w))).1.now = s.now + n * (16 + w) := by
  induction n generalizing s with
  | zero => simp [runLoop]
  | succ n ih =>
    have hrep : List.replicate (2 * (n + 1)) (steadyTick w) =
        steadyTick w :: steadyTick w :: List.replicate (2 * n) (steadyTick w) := by
      rw [show 2 * (n + 1) = 2 * n + 1 + 1 by ring, List.replicate_succ, List.replicate_succ]
    obtain ⟨h1, h2⟩ := iteration_steadyTick_pair s w hw0 hw hs
    rw [hrep]
    simp only [runLoop]
    rw [ih _ (h2.trans h1.symm), h1]
    push_cast
    ring

/-- C7 (evaluation of the code): in a steady run whose every iteration does
`w` milliseconds of work, `0 ≤ w < 16`, the residual sleep is taken only in every
second iteration (the sleep of one iteration is counted as elapsed time of the
next), so `2 * n` iterations take `n * (16 + w)` milliseconds: more than 60
iterations per second.  An iteration whose elapsed time reaches the interval is
followed by no sleep. -/
theorem captureLoop_rate_exceeds_target (n : Nat) (w : Int) (hw0 : 0 ≤ w) (hw : w < 16) :
    (runLoop fullHD (initialState 0) (List.replicate (2 * (n + 1)) (steadyTick w))).1.now =
      (n + 1) * (16 + w) ∧
    (2 * (n + 1) : Int) * 1000 > targetFPS * ((n + 1) * (16 + w)) ∧
    (∀ now timerStart : Int, sleepTime ≤ now - timerStart → (paceTick now timerStart).1 = now) := by
  refine ⟨?_, ?_, ?_⟩
  · rw [runLoop_steady_now (n + 1) (initialState 0) w hw0 hw rfl]
    simp [initialState]
  · have h : targetFPS = 60 := rfl
    rw [h]
    nlinarith
  · intro now timerStart h
    simp only [paceTick]
    rw [if_neg (by omega)]

/-- Instance of `captureLoop_rate_exceeds_target`: with no measurable work 124
iterations complete in 992 ms, and with 5 ms of work per iteration 94
iterations complete in 987 ms. -/
theorem captureLoop_rate_exceeds_target_witness :
    (runLoop fullHD (initialState 0) (List.replicate 124 (steadyTick 0))).1.now = 992 ∧
    (runLoop fullHD (initialState 0) (List.replicate 94 (steadyTick 5))).1.now = 987 :=
  ⟨(captureLoop_rate_exceeds_target 61 0 (by decide) (by decide)).1,
   (captureLoop_rate_exceeds_target 46 5 (by decide) (by decide)).1⟩

/-! ## Unresolvable host strings -/

/-- C8 (as stated, refuted): after a send to `192.168.50.110` has cached that
address, a send to the unresolvable host string `wiz-bulb.local` is not skipped
(the `writeDatagram` call is made, addressed to the null address) and the
cached address is replaced by the null address instead of being kept. -/
theorem sendColour_unresolved_counterexample :
    literalResolve "wiz-bulb.local" = none ∧
    (sendColour literalResolve UdpSender.fresh "192.168.50.110" 38899
      ⟨true, 255, 0, 0⟩ 100).sender = ⟨"192.168.50.110", some 0xC0A8326E⟩ ∧
    (sendColour literalResolve ⟨"192.168.50.110", some 0xC0A8326E⟩ "wiz-bulb.local" 38899
      ⟨true, 255, 0, 0⟩ 100).datagram ≠ none ∧
    (sendColour literalResolve ⟨"192.168.50.110", some 0xC0A8326E⟩ "wiz-bulb.local" 38899
      ⟨true, 255, 0, 0⟩ 100).datagram.map (fun w => w.address) = some none ∧
    (sendColour literalResolve ⟨"192.168.50.110", some 0xC0A8326E⟩ "wiz-bulb.local" 38899
      ⟨true, 255, 0, 0⟩ 100).sender = ⟨"wiz-bulb.local", none⟩ := by
  refine ⟨by decide, by decide, by decide, by decide, by decide⟩

/-- C8 (amended): a send whose host string does not resolve is not skipped:
`writeDatagram` is called with the formatted payload, addressed to the cached
address as it stands after the cache update.  When the host string differs
from the cached one, the cached string becomes that string and the cached
address becomes the null address (the previously cached address is dropped);
when it equals the cached one, the cache is left as it is. -/
theorem sendColour_unresolved (resolve : String → QHostAddress) (s : UdpSender) (ip : String)
    (port : Int) (colour : QColor) (brightness : Int) (hnone : resolve ip = none) :
    (sendColour resolve s ip port colour brightness).datagram =
      some ⟨(snprintf 128 (formatPayload colour.red colour.green colour.blue brightness)).1,
        (snprintf 128 (formatPayload colour.red colour.green colour.blue brightness)).2,
        (sendColour resolve s ip port colour brightness).sender.m_cachedAddress,
        toUInt16 port⟩ ∧
    (ip ≠ s.m_cachedIp →
      (sendColour resolve s ip port colour brightness).sender = ⟨ip, none⟩) ∧
    (ip = s.m_cachedIp →
      (sendColour resolve s ip port colour brightness).sender = s) := by
  refine ⟨?_, ?_, ?_⟩
  · simp only [sendColour]
  · intro h
    simp [sendColour, Ne.symm h, hnone]
  · intro h
    simp [sendColour, h]

/-- Instance of `sendColour_unresolved` at the host name `wiz-bulb.local`, sent
after `192.168.50.110` was cached: the datagram goes to the null address and
the cache holds the null address afterwards. -/
theorem sendColour_unresolved_witness :
    (sendColour literalResolve ⟨"192.168.50.110", some 0xC0A8326E⟩ "wiz-bulb.local" 38899
      ⟨true, 255, 0, 0⟩ 100).sender = ⟨"wiz-bulb.local", none⟩ :=
  (sendColour_unresolved literalResolve ⟨"192.168.50.110", some 0xC0A8326E⟩ "wiz-bulb.local"
    38899 ⟨true, 255, 0, 0⟩ 100 (by decide)).2.1 (by decide)

/-! ## Change gate state over a run -/

theorem channelDistance_eq_abs (c L : QColor) :
    channelDistance c L = |c.red - L.red| + |c.green - L.green| + |c.blue - L.blue| := by
  simp only [channelDistance, qAbs_eq_abs]

theorem validOrBlack_valid (c : QColor) : (validOrBlack c).valid = true := by
  unfold validOrBlack
  by_cases h : c.valid = true
  · simp [h]
  · simp only [Bool.not_eq_true] at h
    simp [h, QColor.fromRgb]

theorem iteration_sampled (screenRect : QRect) (s : LoopState) (e : Tick) (image : QImage)
    (sampled : QColor)
    (hrect : (captureRectOf e.m_x e.m_y e.m_size screenRect).isEmpty = false)
    (hpixmap : e.pixmap = some image)
    (hsample : sampleColour (captureRectOf e.m_x e.m_y e.m_size screenRect) image = some sampled) :
    (iteration screenRect s e).2 =
      (if changeGate (validOrBlack sampled) s.lastColour e.m_updateThreshold = true then
        some (validOrBlack sampled) else none) ∧
    (iteration screenRect s e).1.lastColour =
      (if changeGate (validOrBlack sampled) s.lastColour e.m_updateThreshold = true then
        validOrBlack sampled else s.lastColour) := by
  simp only [iteration, hrect, hpixmap, hsample, Bool.false_eq_true, if_false]
  split_ifs <;> exact ⟨rfl, rfl⟩

theorem iteration_cases (screenRect : QRect) (s : LoopState) (e : Tick) :
    ((iteration screenRect s e).2 = none ∧
      (iteration screenRect s e).1.lastColour = s.lastColour) ∨
    (∃ c : QColor, (iteration screenRect s e).2 = some c ∧
      (iteration screenRect s e).1.lastColour = c ∧ c.valid = true ∧
      changeGate c s.lastColour e.m_updateThreshold = true) := by
  unfold iteration
  simp only
  split_ifs with h1
  · left; exact ⟨rfl, rfl⟩
  · cases hp : e.pixmap with
    | none => left; exact ⟨rfl, rfl⟩
    | some image =>
      simp only
      cases hs : sampleColour (captureRectOf e.m_x e.m_y e.m_size screenRect) image with
      | none => left; exact ⟨rfl, rfl⟩
      | some sampled =>
        simp only
        split_ifs with h2
        · right
          exact ⟨validOrBlack sampled, rfl, rfl, validOrBlack_valid sampled, h2⟩
        · left; exact ⟨rfl, rfl⟩

theorem changeGate_distance (c L : QColor) (t : Int) (hL : L.valid = true)
    (h : changeGate c L t = true) :
    |c.red - L.red| + |c.green - L.green| + |c.blue - L.blue| > t := by
  simp only [changeGate, hL, Bool.not_true, Bool.false_or, decide_eq_true_eq,
    channelDistance_eq_abs] at h
  exact h

theorem runLoop_chain (screenRect : QRect) (t : Int) (ticks : List Tick)
    (hth : ∀ e ∈ ticks, e.m_updateThreshold = t) (s : LoopState) :
    (s.lastColour.valid = true →
      List.Chain (fun previous next : QColor => |next.red - previous.red| +
        |next.green - previous.green| + |next.blue - previous.blue| > t) s.lastColour
        (runLoop screenRect s ticks).2) ∧
    List.Chain' (fun previous next : QColor => |next.red - previous.red| +
        |next.green - previous.green| + |next.blue - previous.blue| > t)
        (runLoop screenRect s ticks).2 ∧
    (runLoop screenRect s ticks).1.lastColour =
      ((runLoop screenRect s ticks).2.getLast?).getD s.lastColour := by
  induction ticks generalizing s with
  | nil =>
    simp only [runLoop]
    exact ⟨fun _ => List.Chain.nil, List.chain'_nil, rfl⟩
  | cons e es ih =>
    have hth' : ∀ e ∈ es, e.m_updateThreshold = t := fun x hx => hth x (List.mem_cons_of_mem e hx)
    have het : e.m_updateThreshold = t := hth e (List.mem_cons_self e es)
    obtain ⟨ih1, ih2, ih3⟩ := ih hth' (iteration screenRect s e).1
    simp only [runLoop]
    rcases iteration_cases screenRect s e with ⟨hnone, hlast⟩ | ⟨c, hsome, hlast, hvalid, hgate⟩
    · rw [hnone]
      simp only [Option.toList, List.nil_append]
      rw [hlast] at ih1 ih3
      exact ⟨ih1, ih2, ih3⟩
    · rw [hsome]
      simp only [Option.toList, List.singleton_append]
      rw [hlast] at ih1 ih3
      refine ⟨fun hs => List.Chain.cons ?_ (ih1 hvalid), ih1 hvalid, ?_⟩
      · rw [het] at hgate
        exact changeGate_distance c s.lastColour t hs hgate
      · rw [ih3, List.getLast?_cons]
        rfl

/-- C10: for every run of the loop with a fixed threshold `t`, an iteration that
sampled a colour replaces `lastColour` by the candidate exactly when the gate
accepts it (and then emits it) and leaves `lastColour` as it was when the gate
rejects it, so `lastColour` always is the last emitted colour (unset before the
first emission); consequently each emitted colour after the first differs from
the colour emitted before it by a sum of absolute channel differences strictly
greater than `t`. -/
theorem changeGate_state_sequence (screenRect : QRect) (t0 t : Int) (ticks : List Tick)
    (hth : ∀ e ∈ ticks, e.m_updateThreshold = t) :
    (∀ (s : LoopState) (e : Tick) (image : QImage) (sampled : QColor),
      (captureRectOf e.m_x e.m_y e.m_size screenRect).isEmpty = false →
      e.pixmap = some image →
      sampleColour (captureRectOf e.m_x e.m_y e.m_size screenRect) image = some sampled →
      (iteration screenRect s e).2 =
        (if changeGate (validOrBlack sampled) s.lastColour e.m_updateThreshold = true then
          some (validOrBlack sampled) else none) ∧
      (iteration screenRect s e).1.lastColour =
        (if changeGate (validOrBlack sampled) s.lastColour e.m_updateThreshold = true then
          validOrBlack sampled else s.lastColour)) ∧
    (runLoop screenRect (initialState t0) ticks).1.lastColour =
      ((runLoop screenRect (initialState t0) ticks).2.getLast?).getD QColor.invalid ∧
    List.Chain' (fun previous next : QColor => |next.red - previous.red| +
        |next.green - previous.green| + |next.blue - previous.blue| > t)
      (runLoop screenRect (initialState t0) ticks).2 := by
  obtain ⟨_, h2, h3⟩ := runLoop_chain screenRect t ticks hth (initialState t0)
  exact ⟨fun s e image sampled hrect hpixmap hsample =>
    iteration_sampled screenRect s e image sampled hrect hpixmap hsample, h3, h2⟩

/-- Instance of `changeGate_state_sequence` with threshold 3: the samples
`(0,0,0)`, `(0,0,2)`, `(0,0,5)`, `(0,0,6)` emit `(0,0,0)` and `(0,0,5)`; the third
sample is compared with the emitted `(0,0,0)`, not with the rejected `(0,0,2)`. -/
theorem changeGate_state_sequence_witness :
    (runLoop fullHD (initialState 0)
      [pixelTick 0xff000000, pixelTick 0xff000002, pixelTick 0xff000005,
        pixelTick 0xff000006]).2 = [⟨true, 0, 0, 0⟩, ⟨true, 0, 0, 5⟩] ∧
    (runLoop fullHD (initialState 0)
      [pixelTick 0xff000000, pixelTick 0xff000002, pixelTick 0xff000005,
        pixelTick 0xff000006]).1.lastColour = ⟨true, 0, 0, 5⟩ ∧
    List.Chain' (fun previous next : QColor => |next.red - previous.red| +
        |next.green - previous.green| + |next.blue - previous.blue| > 3)
      (runLoop fullHD (initialState 0)
        [pixelTick 0xff000000, pixelTick 0xff000002, pixelTick 0xff000005,
          pixelTick 0xff000006]).2 :=
  ⟨by decide, by decide,
    (changeGate_state_sequence fullHD 0 3
      [pixelTick 0xff000000, pixelTick 0xff000002, pixelTick 0xff000005, pixelTick 0xff000006]
      (by decide)).2.2⟩

/-! ## Failed captures -/

theorem pixelColor_of_isNull (image : QImage) (h : image.isNull = true) (x y : Nat) :
    image.pixelColor x y = QColor.invalid := by
  simp [QImage.pixelColor, h]

theorem iteration_null_pixmap (screenRect : QRect) (s : LoopState) (e : Tick)
    (h : e.pixmap = none) :
    (iteration screenRect s e).2 = none ∧
    (iteration screenRect s e).1.lastColour = s.lastColour ∧
    (iteration screenRect s e).1.currentColour = s.currentColour := by
  simp only [iteration, h]
  split_ifs <;> exact ⟨rfl, rfl, rfl⟩

theorem iteration_null_image_averaging (screenRect : QRect) (s : LoopState) (e : Tick)
    (image : QImage) (hp : e.pixmap = some image) (hnull : image.isNull = true)
    (hpath : ¬ ((captureRectOf e.m_x e.m_y e.m_size screenRect).width = 1 ∧
      (captureRectOf e.m_x e.m_y e.m_size screenRect).height = 1)) :
    (iteration screenRect s e).2 = none ∧
    (iteration screenRect s e).1.lastColour = s.lastColour ∧
    (iteration screenRect s e).1.currentColour = s.currentColour := by
  simp only [iteration, hp, sampleColour, hpath, hnull, if_false, if_true]
  split_ifs <;> exact ⟨rfl, rfl, rfl⟩

theorem iteration_null_image_single_pixel (screenRect : QRect) (s : LoopState) (e : Tick)
    (image : QImage) (hp : e.pixmap = some image) (hnull : image.isNull = true)
    (hrect : (captureRectOf e.m_x e.m_y e.m_size screenRect).isEmpty = false)
    (hpath : (captureRectOf e.m_x e.m_y e.m_size screenRect).width = 1 ∧
      (captureRectOf e.m_x e.m_y e.m_size screenRect).height = 1) :
    (iteration screenRect s e).1.currentColour = ⟨true, 0, 0, 0⟩ ∧
    (iteration screenRect s e).2 =
      (if changeGate ⟨true, 0, 0, 0⟩ s.lastColour e.m_updateThreshold = true then
        some ⟨true, 0, 0, 0⟩ else none) := by
  have hs : sampleColour (captureRectOf e.m_x e.m_y e.m_size screenRect) image =
      some QColor.invalid := by
    simp only [sampleColour, hpath, and_self, if_true, pixelColor_of_isNull image hnull]
  have hv : validOrBlack QColor.invalid = ⟨true, 0, 0, 0⟩ := by decide
  simp only [iteration, hrect, hp, hs, hv, Bool.false_eq_true, if_false]
  split_ifs <;> exact ⟨rfl, rfl⟩

/-- C11 (evaluation of the code): a null pixmap, and a null image on the
averaging path, make the iteration emit nothing and leave `lastColour` and
`currentColour` as they were.  On the single-pixel path a null image is not
detected: the invalid colour read from it is replaced by `(0, 0, 0)`, which
becomes `currentColour` and is emitted whenever the change gate accepts it.  In
the first iteration of a run, and after an accepted `(16, 32, 48)`, a failed
single-pixel conversion emits `(0, 0, 0)` and stores it as `lastColour`, while
the same failure on a 10 x 10 region emits nothing. -/
theorem iteration_capture_failure :
    (∀ (screenRect : QRect) (s : LoopState) (e : Tick), e.pixmap = none →
      (iteration screenRect s e).2 = none ∧
      (iteration screenRect s e).1.lastColour = s.lastColour ∧
      (iteration screenRect s e).1.currentColour = s.currentColour) ∧
    (∀ (screenRect : QRect) (s : LoopState) (e : Tick) (image : QImage),
      e.pixmap = some image → image.isNull = true →
      ¬ ((captureRectOf e.m_x e.m_y e.m_size screenRect).width = 1 ∧
        (captureRectOf e.m_x e.m_y e.m_size screenRect).height = 1) →
      (iteration screenRect s e).2 = none ∧
      (iteration screenRect s e).1.lastColour = s.lastColour ∧
      (iteration screenRect s e).1.currentColour = s.currentColour) ∧
    (∀ (screenRect : QRect) (s : LoopState) (e : Tick) (image : QImage),
      e.pixmap = some image → image.isNull = true →
      (captureRectOf e.m_x e.m_y e.m_size screenRect).isEmpty = false →
      ((captureRectOf e.m_x e.m_y e.m_size screenRect).width = 1 ∧
        (captureRectOf e.m_x e.m_y e.m_size screenRect).height = 1) →
      (iteration screenRect s e).1.currentColour = ⟨true, 0, 0, 0⟩ ∧
      (iteration screenRect s e).2 =
        (if changeGate ⟨true, 0, 0, 0⟩ s.lastColour e.m_updateThreshold = true then
          some ⟨true, 0, 0, 0⟩ else none)) ∧
    iteration fullHD (initialState 0) (failedImageTick 1) =
      (⟨⟨true, 0, 0, 0⟩, ⟨true, 0, 0, 0⟩, 16, 2⟩, some ⟨true, 0, 0, 0⟩) ∧
    iteration fullHD ⟨⟨true, 16, 32, 48⟩, ⟨true, 16, 32, 48⟩, 16, 2⟩ (failedImageTick 1) =
      (⟨⟨true, 0, 0, 0⟩, ⟨true, 0, 0, 0⟩, 18, 18⟩, some ⟨true, 0, 0, 0⟩) ∧
    iteration fullHD ⟨⟨true, 16, 32, 48⟩, ⟨true, 16, 32, 48⟩, 16, 2⟩ (failedImageTick 10) =
      (⟨⟨true, 16, 32, 48⟩, ⟨true, 16, 32, 48⟩, 34, 2⟩, none) := by
  refine ⟨fun screenRect s e h => iteration_null_pixmap screenRect s e h,
    fun screenRect s e image hp hnull hpath =>
      iteration_null_image_averaging screenRect s e image hp hnull hpath,
    fun screenRect s e image hp hnull hrect hpath =>
      iteration_null_image_single_pixel screenRect s e image hp hnull hrect hpath,
    by decide, by decide, by decide⟩

/-! ## Mean colour of the averaging loop -/

theorem sum_map_le_of_forall {α : Type} (f : α → Nat) (hi : Nat) (l : List α)
    (h : ∀ a ∈ l, f a ≤ hi) : (l.map f).sum ≤ l.length * hi := by
  induction l with
  | nil => simp
  | cons a as ih =>
    have ha : f a ≤ hi := h a (List.mem_cons_self a as)
    have has : ∀ x ∈ as, f x ≤ hi := fun x hx => h x (List.mem_cons_of_mem a hx)
    have := ih has
    rw [List.map_cons, List.sum_cons, List.length_cons, Nat.add_mul]
    omega

theorem sum_map_ge_of_forall {α : Type} (f : α → Nat) (lo : Nat) (l : List α)
    (h : ∀ a ∈ l, lo ≤ f a) : l.length * lo ≤ (l.map f).sum := by
  induction l with
  | nil => simp
  | cons a as ih =>
    have ha : lo ≤ f a := h a (List.mem_cons_self a as)
    have has : ∀ x ∈ as, lo ≤ f x := fun x hx => h x (List.mem_cons_of_mem a hx)
    have := ih has
    rw [List.map_cons, List.sum_cons, List.length_cons, Nat.add_mul]
    omega

theorem channel_sum_lt (f : QRgb → Nat) (hf : ∀ p, f p ≤ 255) (l : List QRgb)
    (hl : l.length < 2 ^ 31) : (l.map f).sum < 2 ^ 64 := by
  have h := sum_map_le_of_forall f 255 l (fun a _ => hf a)
  calc (l.map f).sum ≤ l.length * 255 := h
    _ ≤ 2 ^ 31 * 255 := Nat.mul_le_mul_right 255 hl.le
    _ < 2 ^ 64 := by norm_num

theorem foldl_addPixel_exact (l : List QRgb) (hl : l.length < 2 ^ 31) :
    l.foldl addPixel ⟨0, 0, 0, 0⟩ =
      { rTotal := (l.map qRed).sum
        gTotal := (l.map qGreen).sum
        bTotal := (l.map qBlue).sum
        pixelCount := (l.length : Int) } := by
  rw [foldl_addPixel l _ (by norm_num) (by norm_num) (by norm_num)]
  simp only [Nat.zero_add, Int.zero_add]
  rw [Nat.mod_eq_of_lt (channel_sum_lt qRed qRed_le l hl),
    Nat.mod_eq_of_lt (channel_sum_lt qGreen qGreen_le l hl),
    Nat.mod_eq_of_lt (channel_sum_lt qBlue qBlue_le l hl)]

theorem mean_between (S n lo hi : Nat) (hn : 0 < n) (hlo : n * lo ≤ S) (hhi : S ≤ n * hi) :
    lo ≤ S / n ∧ S / n ≤ hi := by
  constructor
  · rw [Nat.le_div_iff_mul_le hn, Nat.mul_comm]
    exact hlo
  · apply Nat.div_le_of_le_mul
    exact hhi

theorem mem_pixels_of_lt (image : QImage) (y x : Nat) (hy : y < image.height)
    (hx : x < image.width) : image.scanLine y x ∈ image.pixels := by
  unfold QImage.pixels
  simp only [List.mem_flatten, List.mem_map, List.mem_range]
  exact ⟨(List.range image.width).map (fun x => image.scanLine y x), ⟨y, hy, rfl⟩,
    by simp only [List.mem_map, List.mem_range]; exact ⟨x, hx, rfl⟩⟩

theorem channel_mean_between (f : QRgb → Nat) (image : QImage) (lo hi : Nat)
    (hpos : 0 < image.pixels.length)
    (h : ∀ y x, y < image.height → x < image.width →
      lo ≤ f (image.scanLine y x) ∧ f (image.scanLine y x) ≤ hi) :
    lo ≤ (image.pixels.map f).sum / image.pixels.length ∧
    (image.pixels.map f).sum / image.pixels.length ≤ hi := by
  apply mean_between _ _ _ _ hpos
  · exact sum_map_ge_of_forall f lo _ (fun p hp => by
      obtain ⟨y, x, hy, hx, rfl⟩ := mem_pixels image p hp
      exact (h y x hy hx).1)
  · exact sum_map_le_of_forall f hi _ (fun p hp => by
      obtain ⟨y, x, hy, hx, rfl⟩ := mem_pixels image p hp
      exact (h y x hy hx).2)

theorem meanColour_exact (l : List QRgb) (hpos : 0 < l.length) (hl : l.length < 2 ^ 31) :
    meanColour ⟨(l.map qRed).sum, (l.map qGreen).sum, (l.map qBlue).sum, (l.length : Int)⟩ =
      ⟨true, (((l.map qRed).sum / l.length : Nat) : Int),
        (((l.map qGreen).sum / l.length : Nat) : Int),
        (((l.map qBlue).sum / l.length : Nat) : Int)⟩ := by
  have hbound : ∀ f : QRgb → Nat, (∀ p, f p ≤ 255) → (l.map f).sum / l.length ≤ 255 := by
    intro f hf
    apply Nat.div_le_of_le_mul
    exact sum_map_le_of_forall f 255 l (fun a _ => hf a)
  have hr := hbound qRed qRed_le
  have hg := hbound qGreen qGreen_le
  have hb := hbound qBlue qBlue_le
  unfold meanColour
  have hcnt : ((l.length : Nat) : Int) > 0 := by exact_mod_cast hpos
  simp only [hcnt, if_true]
  rw [toUInt64_natCast _ (by omega), toInt32_small _ (by omega), toInt32_small _ (by omega),
    toInt32_small _ (by omega)]
  generalize (l.map qRed).sum / l.length = qr at hr ⊢
  generalize (l.map qGreen).sum / l.length = qg at hg ⊢
  generalize (l.map qBlue).sum / l.length = qb at hb ⊢
  unfold QColor.fromRgb
  rw [if_pos]
  omega

/-- C12: for an image of `n = width * height` pixels, `1 ≤ n < 2 ^ 31`, the
averaging loop visits exactly `n` pixels; after any number of them the three
64-bit totals are the exact channel sums of the pixels visited, each below
`2 ^ 64` (no wrap-around), and the counter is their number; each channel of the
sampled colour is `S / n` rounded down, `S` being the sum of that channel over
all pixels; that value lies between any lower and any upper bound of the
channel over the image (so between its minimum and its maximum), hence in
`[0, 255]`. -/
theorem meanColour_average (image : QImage)
    (hpos : 1 ≤ image.width * image.height) (hcount : image.width * image.height < 2 ^ 31) :
    image.pixels.length = image.width * image.height ∧
    (∀ k : Nat,
      (image.pixels.take k).foldl addPixel ⟨0, 0, 0, 0⟩ =
        ⟨((image.pixels.take k).map qRed).sum, ((image.pixels.take k).map qGreen).sum,
          ((image.pixels.take k).map qBlue).sum, ((image.pixels.take k).length : Int)⟩ ∧
      ((image.pixels.take k).map qRed).sum < 2 ^ 64 ∧
      ((image.pixels.take k).map qGreen).sum < 2 ^ 64 ∧
      ((image.pixels.take k).map qBlue).sum < 2 ^ 64) ∧
    sumImage image =
      ⟨(image.pixels.map qRed).sum, (image.pixels.map qGreen).sum,
        (image.pixels.map qBlue).sum, ((image.width * image.height : Nat) : Int)⟩ ∧
    meanColour (sumImage image) =
      ⟨true, (((image.pixels.map qRed).sum / (image.width * image.height) : Nat) : Int),
        (((image.pixels.map qGreen).sum / (image.width * image.height) : Nat) : Int),
        (((image.pixels.map qBlue).sum / (image.width * image.height) : Nat) : Int)⟩ ∧
    (∀ captureRect : QRect, ¬ (captureRect.width = 1 ∧ captureRect.height = 1) →
      sampleColour captureRect image = some (meanColour (sumImage image))) ∧
    (∀ lo hi : Nat,
      (∀ y x, y < image.height → x < image.width →
        lo ≤ qRed (image.scanLine y x) ∧ qRed (image.scanLine y x) ≤ hi) →
      lo ≤ (image.pixels.map qRed).sum / (image.width * image.height) ∧
      (image.pixels.map qRed).sum / (image.width * image.height) ≤ hi) ∧
    (∀ lo hi : Nat,
      (∀ y x, y < image.height → x < image.width →
        lo ≤ qGreen (image.scanLine y x) ∧ qGreen (image.scanLine y x) ≤ hi) →
      lo ≤ (image.pixels.map qGreen).sum / (image.width * image.height) ∧
      (image.pixels.map qGreen).sum / (image.width * image.height) ≤ hi) ∧
    (∀ lo hi : Nat,
      (∀ y x, y < image.height → x < image.width →
        lo ≤ qBlue (image.scanLine y x) ∧ qBlue (image.scanLine y x) ≤ hi) →
      lo ≤ (image.pixels.map qBlue).sum / (image.width * image.height) ∧
      (image.pixels.map qBlue).sum / (image.width * image.height) ≤ hi) ∧
    (image.pixels.map qRed).sum / (image.width * image.height) ≤ 255 ∧
    (image.pixels.map qGreen).sum / (image.width * image.height) ≤ 255 ∧
    (image.pixels.map qBlue).sum / (image.width * image.height) ≤ 255 := by
  have hlen : image.pixels.length = image.width * image.height := by
    rw [pixels_length, Nat.mul_comm]
  have hl : image.pixels.length < 2 ^ 31 := hlen ▸ hcount
  have hp : 0 < image.pixels.length := hlen ▸ hpos
  have hw : image.width ≠ 0 := fun h => by rw [h, Nat.zero_mul] at hpos; omega
  have hh : image.height ≠ 0 := fun h => by rw [h, Nat.mul_zero] at hpos; omega
  have hnull : image.isNull = false := by
    simp only [QImage.isNull, Bool.or_eq_false_iff, beq_eq_false_iff_ne]
    exact ⟨hw, hh⟩
  have hsum : sumImage image =
      ⟨(image.pixels.map qRed).sum, (image.pixels.map qGreen).sum,
        (image.pixels.map qBlue).sum, ((image.width * image.height : Nat) : Int)⟩ := by
    rw [sumImage_eq_foldl, foldl_addPixel_exact _ hl, hlen]
  have hmean := meanColour_exact image.pixels hp hl
  rw [hlen] at hmean
  have hub : ∀ f : QRgb → Nat, (∀ p, f p ≤ 255) →
      (image.pixels.map f).sum / (image.width * image.height) ≤ 255 := by
    intro f hf
    have := (channel_mean_between f image 0 255 hp (fun y x _ _ => ⟨Nat.zero_le _, hf _⟩)).2
    rwa [hlen] at this
  refine ⟨hlen, ?_, hsum, ?_, ?_, ?_, ?_, ?_, hub qRed qRed_le, hub qGreen qGreen_le,
    hub qBlue qBlue_le⟩
  · intro k
    have hk : (image.pixels.take k).length < 2 ^ 31 :=
      lt_of_le_of_lt (by rw [List.length_take]; exact Nat.min_le_right _ _) hl
    exact ⟨foldl_addPixel_exact _ hk, channel_sum_lt qRed qRed_le _ hk,
      channel_sum_lt qGreen qGreen_le _ hk, channel_sum_lt qBlue qBlue_le _ hk⟩
  · rw [hsum]
    exact hmean
  · intro captureRect hpath
    simp only [sampleColour, hpath, hnull, if_false, Bool.false_eq_true]
  · intro lo hi h
    have := channel_mean_between qRed image lo hi hp h
    rwa [hlen] at this
  · intro lo hi h
    have := channel_mean_between qGreen image lo hi hp h
    rwa [hlen] at this
  · intro lo hi h
    have := channel_mean_between qBlue image lo hi hp h
    rwa [hlen] at this

/-- Instance of `meanColour_average`: the 2 x 2 image with channels
`(1,0,0)`, `(11,0,7)`, `(21,3,0)`, `(31,3,7)` has channel sums 64, 6 and 14 and
is sampled as `(16, 1, 3)`. -/
theorem meanColour_average_witness :
    sumImage ⟨2, 2, fun y x => 0xff000000 + 65536 * (10 * (2 * y + x) + 1) + 256 * (3 * y) + 7 * x⟩
      = ⟨64, 6, 14, 4⟩ ∧
    meanColour (sumImage
      ⟨2, 2, fun y x => 0xff000000 + 65536 * (10 * (2 * y + x) + 1) + 256 * (3 * y) + 7 * x⟩)
      = ⟨true, 16, 1, 3⟩ ∧
    sampleColour ⟨95, 95, 96, 96⟩
      ⟨2, 2, fun y x => 0xff000000 + 65536 * (10 * (2 * y + x) + 1) + 256 * (3 * y) + 7 * x⟩
      = some ⟨true, 16, 1, 3⟩ := by
  have h := meanColour_average
    ⟨2, 2, fun y x => 0xff000000 + 65536 * (10 * (2 * y + x) + 1) + 256 * (3 * y) + 7 * x⟩
    (by decide) (by decide)
  refine ⟨h.2.2.1.trans (by decide), h.2.2.2.1.trans (by decide), ?_⟩
  rw [h.2.2.2.2.1 ⟨95, 95, 96, 96⟩ (by decide), h.2.2.2.1]
  decide

/-! ## Payload and buffer size -/

theorem formatInt_length_int32 (d : Int) (hlo : -2 ^ 31 ≤ d) (hhi : d < 2 ^ 31) :
    (formatInt d).length ≤ 11 := by
  rcases lt_or_le d 0 with hneg | hnonneg
  · obtain ⟨m, rfl⟩ := Int.eq_negSucc_of_lt_zero hneg
    have hm : m + 1 < 10 ^ 10 := by
      have : (Int.negSucc m) = -((m : Int) + 1) := Int.negSucc_eq m
      omega
    have h := Nat.repr_length (m + 1) 10 (by norm_num) hm
    have e : formatInt (Int.negSucc m) = ("-" ++ toString (m + 1)).toList := rfl
    have hlen : ("-" ++ toString (m + 1)).toList.length =
        ("-" ++ toString (m + 1)).length := rfl
    have h1 : ("-" : String).length = 1 := by decide
    have h2 : (toString (m + 1)).length = (Nat.repr (m + 1)).length := rfl
    rw [e, hlen, String.length_append, h1, h2]
    omega
  · obtain ⟨n, rfl⟩ := Int.eq_ofNat_of_zero_le hnonneg
    have hn : n < 10 ^ 10 := by omega
    have := formatInt_natCast_length n 10 (by norm_num) hn
    omega

/-- C13: for channels in `[0, 255]` and any 32-bit signed brightness the
formatted payload has 65 characters plus those of the four decimal renderings,
at most 85 in all (at most 77 for a brightness in `[1, 100]`), which is below
the 128-byte buffer; so `snprintf` stores the whole text and the length handed
to `writeDatagram` is the number of characters in the buffer. -/
theorem sendColour_payload_fits (resolve : String → QHostAddress) (s : UdpSender) (ip : String)
    (port : Int) (valid : Bool) (r g b : Nat) (d : Int)
    (hr : r ≤ 255) (hg : g ≤ 255) (hb : b ≤ 255) (hlo : -2 ^ 31 ≤ d) (hhi : d < 2 ^ 31) :
    (formatPayload r g b d).length =
      65 + ((toString r).length + (toString g).length + (toString b).length +
        (toString d).length) ∧
    (formatPayload r g b d).length ≤ 85 ∧
    (1 ≤ d ∧ d ≤ 100 → (formatPayload r g b d).length ≤ 77) ∧
    (formatPayload r g b d).length < 128 ∧
    (sendColour resolve s ip port ⟨valid, r, g, b⟩ d).datagram.map (fun w => w.buffer) =
      some (formatPayload r g b d) ∧
    (sendColour resolve s ip port ⟨valid, r, g, b⟩ d).datagram.map (fun w => w.len) =
      (sendColour resolve s ip port ⟨valid, r, g, b⟩ d).datagram.map
        (fun w => (w.buffer.length : Int)) := by
  have h1 := formatInt_natCast_length r 3 (by norm_num) (by omega)
  have h2 := formatInt_natCast_length g 3 (by norm_num) (by omega)
  have h3 := formatInt_natCast_length b 3 (by norm_num) (by omega)
  have h4 := formatInt_length_int32 d hlo hhi
  have hlen := formatPayload_length r g b d
  have h85 : (formatPayload r g b d).length ≤ 85 := by omega
  have htake : List.take (128 - 1) (formatPayload r g b d) = formatPayload r g b d :=
    List.take_of_length_le (by omega)
  refine ⟨hlen, h85, ?_, by omega, ?_, ?_⟩
  · rintro ⟨hd1, hd100⟩
    obtain ⟨n, rfl⟩ := Int.eq_ofNat_of_zero_le (by omega : (0 : Int) ≤ d)
    have h5 := formatInt_natCast_length n 3 (by norm_num) (by omega)
    omega
  · simp only [sendColour, snprintf, Option.map_some', htake]
  · simp only [sendColour, snprintf, Option.map_some', htake]

/-- Instance of `sendColour_payload_fits`: white with the most negative
brightness gives the longest payload, 85 characters, stored whole. -/
theorem sendColour_payload_fits_witness :
    (formatPayload 255 255 255 (-2147483648)).length = 85 ∧
    (sendColour literalResolve UdpSender.fresh "192.168.50.110" 38899
        ⟨true, 255, 255, 255⟩ (-2147483648)).datagram.map (fun w => w.buffer) =
      some "\x7b\"id\":1,\"method\":\"setPilot\",\"params\":\x7b\"r\":255,\"g\":255,\"b\":255,\"dimming\":-2147483648\x7d\x7d".toList := by
  have h := sendColour_payload_fits literalResolve UdpSender.fresh "192.168.50.110" 38899 true
    255 255 255 (-2147483648) (by decide) (by decide) (by decide) (by decide) (by decide)
  simp only [Nat.cast_ofNat] at h
  refine ⟨h.1.trans (by decide), h.2.2.2.2.1.trans (by decide)⟩

end WizEyedropper
